import Mathlib

/-!
# Kuhhandel rules engine — formal model

Shallow embedding of the Kuhhandel (You're Bluffing!) rules engine:
the data model (`src/engine/models.py`) and the auction state machine
(`src/engine/game_state.py`).  Python's mutable objects are modelled by
explicit state passing; operations that raise exceptions return
`Except GameError`.  In the Python source every `raise` in the game-state
operations happens before any mutation, so returning `.error e` with no new
state is an exact translation there; `Player.remove_money` mutates as it
iterates, so it is modelled as returning the (possibly mutated) hand
together with an error flag.
-/

namespace Kuhhandel

/-- The ten animal kinds (`AnimalType` enum in `models.py`). -/
inductive AnimalType
  | ROOSTER
  | GOOSE
  | CAT
  | DOG
  | SHEEP
  | GOAT
  | DONKEY
  | PIG
  | COW
  | HORSE
deriving DecidableEq, Repr

/-- Display name of each animal kind (`AnimalType.animal_name`). -/
def AnimalType.animal_name : AnimalType → String
  | .ROOSTER => "Rooster"
  | .GOOSE => "Goose"
  | .CAT => "Cat"
  | .DOG => "Dog"
  | .SHEEP => "Sheep"
  | .GOAT => "Goat"
  | .DONKEY => "Donkey"
  | .PIG => "Pig"
  | .COW => "Cow"
  | .HORSE => "Horse"

/-- Quartet point value of each animal kind (`AnimalType.quartet_value`). -/
def AnimalType.quartet_value : AnimalType → Nat
  | .ROOSTER => 10
  | .GOOSE => 40
  | .CAT => 90
  | .DOG => 160
  | .SHEEP => 250
  | .GOAT => 350
  | .DONKEY => 500
  | .PIG => 650
  | .COW => 800
  | .HORSE => 1000

/-- The animal kinds in the enum's declaration order (iteration order of
`for animal in AnimalType` in Python). -/
def AnimalType.all : List AnimalType :=
  [.ROOSTER, .GOOSE, .CAT, .DOG, .SHEEP, .GOAT, .DONKEY, .PIG, .COW, .HORSE]

/-- A single animal card (`AnimalCard` frozen dataclass): equality by kind. -/
structure AnimalCard where
  animal_type : AnimalType
deriving DecidableEq, Repr

/-- Money denominations (`MoneyValue` enum). -/
inductive MoneyValue
  | ZERO
  | TEN
  | FIFTY
  | HUNDRED
  | TWO_HUNDRED
  | FIVE_HUNDRED
deriving DecidableEq, Repr

/-- Face amount of a denomination (`MoneyValue.value`). -/
def MoneyValue.amount : MoneyValue → Nat
  | .ZERO => 0
  | .TEN => 10
  | .FIFTY => 50
  | .HUNDRED => 100
  | .TWO_HUNDRED => 200
  | .FIVE_HUNDRED => 500

/-- A single money card (`MoneyCard` frozen dataclass): equality by value. -/
structure MoneyCard where
  value : MoneyValue
deriving DecidableEq, Repr

/-- A player (`Player` dataclass): name, public animal cards, private money
hand. -/
structure Player where
  name : String
  animals : List AnimalCard := []
  money : List MoneyCard := []
deriving DecidableEq, Repr

/-- `Player.total_money`: sum of all money card values in hand. -/
def Player.total_money (p : Player) : Nat :=
  (p.money.map fun c => c.value.amount).sum

/-- `Player.add_money`: appends the given cards to the hidden hand. -/
def Player.add_money (p : Player) (cards : List MoneyCard) : Player :=
  { p with money := p.money ++ cards }

/-- The loop body of `Player.remove_money`: Python executes
`for card in cards: self.money.remove(card)`, where `list.remove` deletes the
first occurrence equal to `card` and raises `ValueError` when none exists.
The result is the hand after the loop stops (normally or by the exception)
paired with `true` exactly when a `ValueError` was raised; on an exception the
returned hand keeps the removals already performed, exactly as the Python
object does. -/
def removeMoneyLoop (hand : List MoneyCard) : List MoneyCard → List MoneyCard × Bool
  | [] => (hand, false)
  | c :: cs =>
      if c ∈ hand then removeMoneyLoop (hand.erase c) cs
      else (hand, true)

/-- `Player.remove_money`: final player state and error flag (see
`removeMoneyLoop`). -/
def Player.remove_money (p : Player) (cards : List MoneyCard) : Player × Bool :=
  let r := removeMoneyLoop p.money cards
  ({ p with money := r.1 }, r.2)

/-- `Player.add_animal`: appends to the public inventory. -/
def Player.add_animal (p : Player) (card : AnimalCard) : Player :=
  { p with animals := p.animals ++ [card] }

/-- `Player.has_animal`: the player owns at least one card of the kind. -/
def Player.has_animal (p : Player) (t : AnimalType) : Bool :=
  p.animals.any fun c => c.animal_type == t

/-- The deck contents built by `Deck.__init__`: for each animal kind in enum
order, `CARDS_PER_ANIMAL = 4` copies. -/
def Deck.initialCards : List AnimalCard :=
  AnimalType.all.flatMap fun a => List.replicate 4 ⟨a⟩

/-- `Deck.draw`: Python `list.pop()` removes and returns the LAST element of
the backing list (the top of the pile), or returns `None` when empty. -/
def Deck.draw (cards : List AnimalCard) : Option (AnimalCard × List AnimalCard) :=
  match cards.getLast? with
  | none => none
  | some c => some (c, cards.dropLast)

/-- The three phases of the game state machine (`GamePhase` enum). -/
inductive GamePhase
  | TURN_START
  | AUCTION_BIDDING
  | AUCTION_WON
deriving DecidableEq, Repr

/-- Snapshot of an in-progress auction (`AuctionState` dataclass).
Bids are Python ints, so `highest_bid` is an `Int`; player indices are list
indices, so they are `Nat`. -/
structure AuctionState where
  card : AnimalCard
  auctioneer_index : Nat
  highest_bid : Int := 0
  highest_bidder_index : Option Nat := none
  active_bidders : List Nat := []
deriving DecidableEq, Repr

/-- The exceptions the engine can raise, one constructor per `raise` site
(`ValueError` in `Game.__init__` and the bid/pass validations, `RuntimeError`
in the phase gates, `AssertionError` in `Game._require_auction`). -/
inductive GameError
  | invalidPlayerCount (n : Nat)
  | wrongPhaseForDraw (phase : GamePhase)
  | deckEmpty
  | noActiveAuction (phase : GamePhase)
  | assertionFailed
  | notActiveBidder (player_index : Nat)
  | notMultipleOf10 (amount : Int)
  | bidTooLow (amount current : Int)
deriving DecidableEq, Repr

/-- The state owned by a `Game` instance: deck, roster, turn pointer, phase,
and optional active auction. -/
structure GameState where
  deck : List AnimalCard
  players : List Player
  current_turn : Nat
  phase : GamePhase
  current_auction : Option AuctionState
deriving DecidableEq, Repr

/-- `MIN_PLAYERS` from `game_state.py`. -/
def MIN_PLAYERS : Nat := 3

/-- `MAX_PLAYERS` from `game_state.py`. -/
def MAX_PLAYERS : Nat := 5

/-- `STARTING_MONEY`: two 0s, four 10s, one 50. -/
def STARTING_MONEY : List MoneyValue :=
  List.replicate 2 MoneyValue.ZERO
    ++ List.replicate 4 MoneyValue.TEN
    ++ List.replicate 1 MoneyValue.FIFTY

namespace Game

/-- `Game.__init__(players)`: validates `MIN_PLAYERS <= len(players) <=
MAX_PLAYERS` (raising `ValueError` otherwise), then initialises the deck
(freshly built and shuffled), turn index 0, phase `TURN_START` and no
auction.  `random.shuffle` draws from a global RNG, so the constructor is
modelled as parametric in the shuffle outcome `shuffled`; reachability
(below) constrains `shuffled` to permutations of `Deck.initialCards`. -/
def init (players : List Player) (shuffled : List AnimalCard) :
    Except GameError GameState :=
  if MIN_PLAYERS ≤ players.length ∧ players.length ≤ MAX_PLAYERS then
    .ok { deck := shuffled, players := players, current_turn := 0,
          phase := .TURN_START, current_auction := none }
  else
    .error (.invalidPlayerCount players.length)

/-- `Game.deal_starting_money`: gives every player the seven starting money
cards. -/
def deal_starting_money (s : GameState) : GameState :=
  { s with players := s.players.map fun p =>
      p.add_money (STARTING_MONEY.map fun v => ⟨v⟩) }

/-- `Game.draw_for_auction`: requires phase `TURN_START` (else
`RuntimeError`), draws the top card (raising `RuntimeError` when the deck is
empty; `Deck.draw` does not mutate an empty deck), builds the bidder list
`[i for i in range(len(players)) if i != current_turn]`, installs the new
`AuctionState` and moves the phase to `AUCTION_BIDDING`. -/
def draw_for_auction (s : GameState) :
    Except GameError (AnimalCard × GameState) :=
  if s.phase ≠ .TURN_START then
    .error (.wrongPhaseForDraw s.phase)
  else
    match Deck.draw s.deck with
    | none => .error .deckEmpty
    | some (card, rest) =>
        let bidders := (List.range s.players.length).filter
          fun i => i ≠ s.current_turn
        let a : AuctionState :=
          { card := card, auctioneer_index := s.current_turn, highest_bid := 0,
            highest_bidder_index := none, active_bidders := bidders }
        .ok (card, { s with deck := rest, phase := .AUCTION_BIDDING,
                            current_auction := some a })

/-- `Game._require_auction`: raises `RuntimeError` when the phase is not
`AUCTION_BIDDING`, then `assert self.current_auction is not None`. -/
def require_auction (s : GameState) : Except GameError AuctionState :=
  if s.phase ≠ .AUCTION_BIDDING then
    .error (.noActiveAuction s.phase)
  else
    match s.current_auction with
    | none => .error .assertionFailed
    | some a => .ok a

/-- `Game.process_bid(player_index, amount)`: after `_require_auction`,
validates membership in `active_bidders`, `amount % 10 == 0`, and
`amount > highest_bid` (each `raise` happens before any mutation), then
records the new highest bid and bidder.  Python's `%` on a positive modulus
agrees with Lean's `Int` `%`. -/
def process_bid (s : GameState) (player_index : Nat) (amount : Int) :
    Except GameError GameState :=
  match require_auction s with
  | .error e => .error e
  | .ok auction =>
    if player_index ∉ auction.active_bidders then
      .error (.notActiveBidder player_index)
    else if amount % 10 ≠ 0 then
      .error (.notMultipleOf10 amount)
    else if amount ≤ auction.highest_bid then
      .error (.bidTooLow amount auction.highest_bid)
    else
      let a : AuctionState :=
        { auction with highest_bid := amount,
                       highest_bidder_index := some player_index }
      .ok { s with current_auction := some a }

/-- `Game.pass_auction(player_index)`: after `_require_auction` and the
membership check, removes the first occurrence of `player_index` from
`active_bidders` (Python `list.remove`); when exactly one bidder remains that
bidder becomes `highest_bidder_index` and the phase becomes `AUCTION_WON`. -/
def pass_auction (s : GameState) (player_index : Nat) :
    Except GameError GameState :=
  match require_auction s with
  | .error e => .error e
  | .ok auction =>
    if player_index ∉ auction.active_bidders then
      .error (.notActiveBidder player_index)
    else
      match auction.active_bidders.erase player_index with
      | [winner] =>
          let a : AuctionState :=
            { auction with active_bidders := [winner],
                           highest_bidder_index := some winner }
          .ok { s with phase := .AUCTION_WON, current_auction := some a }
      | remaining =>
          .ok { s with
                current_auction := some { auction with active_bidders := remaining } }

end Game

/-- Observation helper: the active bidder list of the current auction
(empty when no auction exists). -/
def GameState.activeBidders (s : GameState) : List Nat :=
  match s.current_auction with
  | some a => a.active_bidders
  | none => []

/-- Observation helper: the current highest bid (0 when no auction). -/
def GameState.highestBid (s : GameState) : Int :=
  match s.current_auction with
  | some a => a.highest_bid
  | none => 0

/-- Observation helper: the current highest bidder. -/
def GameState.highestBidder (s : GameState) : Option Nat :=
  match s.current_auction with
  | some a => a.highest_bidder_index
  | none => none

/-- One successful core operation of the Game Session. -/
inductive Step : GameState → GameState → Prop
  | deal (s : GameState) : Step s (Game.deal_starting_money s)
  | draw (s s' : GameState) (card : AnimalCard) :
      Game.draw_for_auction s = .ok (card, s') → Step s s'
  | bid (s s' : GameState) (p : Nat) (amt : Int) :
      Game.process_bid s p amt = .ok s' → Step s s'
  | pass (s s' : GameState) (p : Nat) :
      Game.pass_auction s p = .ok s' → Step s s'

/-- States reachable from a freshly constructed `Game` (over any shuffle
outcome) by any sequence of successful core operations.  Failed operations
raise before mutating in the source, so they do not change the state. -/
inductive Reachable : GameState → Prop
  | init (players : List Player) (shuffled : List AnimalCard) (s : GameState) :
      shuffled.Perm Deck.initialCards → Game.init players shuffled = .ok s →
      Reachable s
  | step (s s' : GameState) : Reachable s → Step s s' → Reachable s'

/-- The bidder list built at auction open. -/
def openBidders (s : GameState) : List Nat :=
  (List.range s.players.length).filter fun i => i ≠ s.current_turn

/-- The state invariant maintained by all core operations: the auction is
present exactly outside `TURN_START`, bids are nonnegative, an auction in
the bidding phase has at least two active bidders, and the roster has at
least `MIN_PLAYERS` players. -/
def Inv (s : GameState) : Prop :=
  (s.current_auction = none ↔ s.phase = .TURN_START) ∧
  (∀ a, s.current_auction = some a → 0 ≤ a.highest_bid) ∧
  (∀ a, s.phase = .AUCTION_BIDDING → s.current_auction = some a →
    2 ≤ a.active_bidders.length) ∧
  3 ≤ s.players.length

def alice : Player := { name := "Alice" }

def bob : Player := { name := "Bob" }

def carol : Player := { name := "Carol" }

def dave : Player := { name := "Dave" }

def horseCard : AnimalCard := ⟨.HORSE⟩

def g0 : GameState :=
  { deck := Deck.initialCards, players := [alice, bob, carol],
    current_turn := 0, phase := .TURN_START, current_auction := none }

def g1 : GameState :=
  { deck := Deck.initialCards.dropLast, players := [alice, bob, carol],
    current_turn := 0, phase := .AUCTION_BIDDING,
    current_auction := some ⟨horseCard, 0, 0, none, [1, 2]⟩ }

def g1b : GameState :=
  { deck := Deck.initialCards.dropLast, players := [alice, bob, carol],
    current_turn := 0, phase := .AUCTION_BIDDING,
    current_auction := some ⟨horseCard, 0, 10, some 1, [1, 2]⟩ }

def g2 : GameState :=
  { deck := Deck.initialCards.dropLast, players := [alice, bob, carol],
    current_turn := 0, phase := .AUCTION_WON,
    current_auction := some ⟨horseCard, 0, 0, some 2, [2]⟩ }

def h0 : GameState :=
  { deck := Deck.initialCards, players := [alice, bob, carol, dave],
    current_turn := 0, phase := .TURN_START, current_auction := none }

def h1 : GameState :=
  { deck := Deck.initialCards.dropLast, players := [alice, bob, carol, dave],
    current_turn := 0, phase := .AUCTION_BIDDING,
    current_auction := some ⟨horseCard, 0, 0, none, [1, 2, 3]⟩ }

def h2 : GameState :=
  { deck := Deck.initialCards.dropLast, players := [alice, bob, carol, dave],
    current_turn := 0, phase := .AUCTION_BIDDING,
    current_auction := some ⟨horseCard, 0, 10, some 1, [1, 2, 3]⟩ }

def h3 : GameState :=
  { deck := Deck.initialCards.dropLast, players := [alice, bob, carol, dave],
    current_turn := 0, phase := .AUCTION_BIDDING,
    current_auction := some ⟨horseCard, 0, 10, some 1, [2, 3]⟩ }

lemma require_auction_ok {s : GameState} {a : AuctionState} :
    Game.require_auction s = .ok a ↔
      s.phase = .AUCTION_BIDDING ∧ s.current_auction = some a := by
  unfold Game.require_auction
  split
  · simp_all
  · rename_i hph
    rw [not_not] at hph
    cases h : s.current_auction <;> simp_all

lemma init_ok {players : List Player} {shuffled : List AnimalCard} {s : GameState} :
    Game.init players shuffled = .ok s ↔
      (MIN_PLAYERS ≤ players.length ∧ players.length ≤ MAX_PLAYERS) ∧
      s = { deck := shuffled, players := players, current_turn := 0,
            phase := .TURN_START, current_auction := none } := by
  unfold Game.init
  split
  · simp_all [eq_comm]
  · simp_all

lemma draw_for_auction_ok {s : GameState} {c : AnimalCard} {s' : GameState} :
    Game.draw_for_auction s = .ok (c, s') ↔
      s.phase = .TURN_START ∧ s.deck.getLast? = some c ∧
      s' = { s with deck := s.deck.dropLast, phase := .AUCTION_BIDDING, current_auction := some ⟨c, s.current_turn, 0, none, openBidders s⟩ } := by
  unfold Game.draw_for_auction Deck.draw openBidders
  split
  · simp_all
  · rename_i hph
    rw [not_not] at hph
    cases h : s.deck.getLast? <;> simp_all [eq_comm]

lemma process_bid_ok {s : GameState} {p : Nat} {amt : Int} {s' : GameState} :
    Game.process_bid s p amt = .ok s' ↔
      ∃ a, Game.require_auction s = .ok a ∧ p ∈ a.active_bidders ∧
        amt % 10 = 0 ∧ a.highest_bid < amt ∧
        s' = { s with current_auction := some { a with highest_bid := amt, highest_bidder_index := some p } } := by
  unfold Game.process_bid
  cases h : Game.require_auction s with
  | error e => simp
  | ok a =>
      simp only [Except.ok.injEq]
      split
      · simp_all
      · split
        · simp_all
        · split
          · rename_i h1 h2 h3
            simp_all
          · rename_i h1 h2 h3
            rw [not_not] at h1
            push_neg at h3
            simp_all [eq_comm]

lemma pass_auction_ok {s : GameState} {p : Nat} {s' : GameState} :
    Game.pass_auction s p = .ok s' ↔
      ∃ a, Game.require_auction s = .ok a ∧ p ∈ a.active_bidders ∧
        ((∃ w, a.active_bidders.erase p = [w] ∧
            s' = { s with phase := .AUCTION_WON, current_auction := some { a with active_bidders := [w], highest_bidder_index := some w } }) ∨
         ((a.active_bidders.erase p).length ≠ 1 ∧
            s' = { s with current_auction := some { a with active_bidders := a.active_bidders.erase p } })) := by
  unfold Game.pass_auction
  cases h : Game.require_auction s with
  | error e => simp
  | ok a =>
      simp only [Except.ok.injEq]
      split
      · simp_all
      · rename_i hmem
        rw [not_not] at hmem
        rcases herase : a.active_bidders.erase p with _ | ⟨w, _ | ⟨y, ys⟩⟩ <;>
          simp [herase, eq_comm, hmem]

lemma le_length_filter_add_count (t : Nat) (l : List Nat) :
    l.length ≤ (l.filter fun i => i ≠ t).length + l.count t := by
  induction l with
  | nil => simp
  | cons c cs ih =>
      by_cases hc : c = t
      · subst hc
        simp only [List.filter_cons, List.count_cons]
        simp at ih ⊢
        omega
      · simp only [List.filter_cons, List.count_cons]
        simp [hc] at ih ⊢
        omega

lemma openBidders_length {s : GameState} (hn : 3 ≤ s.players.length) :
    2 ≤ (openBidders s).length := by
  have h1 := le_length_filter_add_count s.current_turn (List.range s.players.length)
  have h2 : (List.range s.players.length).count s.current_turn ≤ 1 :=
    List.nodup_iff_count_le_one.mp (List.nodup_range _) _
  rw [List.length_range] at h1
  unfold openBidders
  omega

lemma inv_step {s s' : GameState} (hstep : Step s s') (hinv : Inv s) : Inv s' := by
  obtain ⟨hpair, hbid, hbidders, hn⟩ := hinv
  cases hstep
  case deal =>
      unfold Game.deal_starting_money
      refine ⟨hpair, hbid, hbidders, ?_⟩
      simpa using hn
  case draw =>
      rename_i card hok
      rw [draw_for_auction_ok] at hok
      obtain ⟨hph, hc, rfl⟩ := hok
      refine ⟨by simp, by simp, ?_, by simpa using hn⟩
      intro a _ ha
      simp only [Option.some.injEq] at ha
      subst ha
      exact openBidders_length hn
  case bid =>
      rename_i p amt hok
      rw [process_bid_ok] at hok
      obtain ⟨a, hreq, hmem, hmod, hlt, rfl⟩ := hok
      rw [require_auction_ok] at hreq
      obtain ⟨hph, hsome⟩ := hreq
      refine ⟨by simp [hph], ?_, ?_, by simpa using hn⟩
      · intro a' ha'
        simp only [Option.some.injEq] at ha'
        subst ha'
        have := hbid a hsome
        simp
        omega
      · intro a' _ ha'
        simp only [Option.some.injEq] at ha'
        subst ha'
        simpa using hbidders a hph hsome
  case pass =>
      rename_i p hok
      rw [pass_auction_ok] at hok
      obtain ⟨a, hreq, hmem, hcase⟩ := hok
      rw [require_auction_ok] at hreq
      obtain ⟨hph, hsome⟩ := hreq
      rcases hcase with ⟨w, herase, rfl⟩ | ⟨hlen, rfl⟩
      · refine ⟨by simp, ?_, ?_, by simpa using hn⟩
        · intro a' ha'
          simp only [Option.some.injEq] at ha'
          subst ha'
          simpa using hbid a hsome
        · intro a' hph' _
          simp at hph'
      · refine ⟨by simp [hph], ?_, ?_, by simpa using hn⟩
        · intro a' ha'
          simp only [Option.some.injEq] at ha'
          subst ha'
          simpa using hbid a hsome
        · intro a' _ ha'
          simp only [Option.some.injEq] at ha'
          subst ha'
          have h2 := hbidders a hph hsome
          have h3 := List.length_erase_of_mem hmem
          simp
          omega

lemma reachable_inv {s : GameState} (h : Reachable s) : Inv s := by
  induction h with
  | init players shuffled s hperm hok =>
      rw [init_ok] at hok
      obtain ⟨⟨hmin, hmax⟩, rfl⟩ := hok
      exact ⟨by simp, by simp, by simp, hmin⟩
  | step s s' hr hstep ih => exact inv_step hstep ih

lemma except_error_iff {ε α : Type} (x : Except ε α) :
    (∃ e, x = .error e) ↔ ¬∃ v, x = .ok v := by
  cases x <;> simp

lemma step_preserves_won {t t' : GameState} (hstep : Step t t')
    (h : t.phase = .AUCTION_WON) : t'.phase = .AUCTION_WON := by
  cases hstep
  case deal => simpa [Game.deal_starting_money] using h
  case draw =>
      rename_i card hok
      rw [draw_for_auction_ok] at hok
      rw [hok.1] at h
      simp at h
  case bid =>
      rename_i p amt hok
      rw [process_bid_ok] at hok
      obtain ⟨a, hreq, _, _, _, rfl⟩ := hok
      rw [require_auction_ok] at hreq
      rw [hreq.1] at h
      simp at h
  case pass =>
      rename_i p hok
      rw [pass_auction_ok] at hok
      obtain ⟨a, hreq, _, _⟩ := hok
      rw [require_auction_ok] at hreq
      rw [hreq.1] at h
      simp at h

lemma removeMoneyLoop_success_iff (cards : List MoneyCard) :
    ∀ hand, (removeMoneyLoop hand cards).2 = false ↔
      ∀ c, cards.count c ≤ hand.count c := by
  induction cards with
  | nil =>
      intro hand
      simp [removeMoneyLoop]
  | cons c cs ih =>
      intro hand
      unfold removeMoneyLoop
      by_cases hc : c ∈ hand
      · rw [if_pos hc, ih]
        have hpos : 0 < hand.count c := List.count_pos_iff.mpr hc
        apply forall_congr'
        intro x
        rw [List.count_erase, List.count_cons]
        by_cases hxc : c = x
        · subst hxc
          simp
          omega
        · simp [hxc]
      · rw [if_neg hc]
        have hzero : hand.count c = 0 := List.count_eq_zero.mpr hc
        simp only [Bool.true_eq_false, false_iff, not_forall, not_le]
        exact ⟨c, by rw [List.count_cons, hzero]; simp⟩

lemma removeMoneyLoop_success_counts (cards : List MoneyCard) :
    ∀ hand, (removeMoneyLoop hand cards).2 = false →
      ∀ c, (removeMoneyLoop hand cards).1.count c =
        hand.count c - cards.count c := by
  induction cards with
  | nil =>
      intro hand _ c
      simp [removeMoneyLoop]
  | cons c cs ih =>
      intro hand herr x
      unfold removeMoneyLoop at herr ⊢
      by_cases hc : c ∈ hand
      · rw [if_pos hc] at herr ⊢
        rw [ih _ herr x, List.count_erase, List.count_cons]
        omega
      · rw [if_neg hc] at herr
        simp at herr

lemma init3_eq : Game.init [alice, bob, carol] Deck.initialCards = .ok g0 := by rfl

lemma draw_g0 : Game.draw_for_auction g0 = .ok (horseCard, g1) := by rfl

lemma reachable_g0 : Reachable g0 :=
  .init _ _ _ (List.Perm.refl _) init3_eq

lemma reachable_g1 : Reachable g1 :=
  .step _ _ reachable_g0 (.draw _ _ horseCard draw_g0)

lemma bid_g1 : Game.process_bid g1 1 10 = .ok g1b := by rfl

lemma reachable_g1b : Reachable g1b :=
  .step _ _ reachable_g1 (.bid _ _ 1 10 bid_g1)

lemma pass_g1 : Game.pass_auction g1 1 = .ok g2 := by rfl

lemma reachable_g2 : Reachable g2 :=
  .step _ _ reachable_g1 (.pass _ _ 1 pass_g1)

lemma init4_eq : Game.init [alice, bob, carol, dave] Deck.initialCards = .ok h0 := by rfl

lemma draw_h0 : Game.draw_for_auction h0 = .ok (horseCard, h1) := by rfl

lemma bid_h1 : Game.process_bid h1 1 10 = .ok h2 := by rfl

lemma pass_h2 : Game.pass_auction h2 1 = .ok h3 := by rfl

lemma reachable_h3 : Reachable h3 :=
  .step _ _ (.step _ _ (.step _ _ (.init _ _ _ (List.Perm.refl _) init4_eq)
    (.draw _ _ horseCard draw_h0)) (.bid _ _ 1 10 bid_h1)) (.pass _ _ 1 pass_h2)

/-- C1: over reachable states, `process_bid` raises an error exactly when the
phase is not `AUCTION_BIDDING`, or the player is not an active bidder, or the
amount is not a positive multiple of 10, or the amount does not strictly
exceed the current highest bid; on acceptance the bid and bidder are
recorded, the phase stays `AUCTION_BIDDING` and the bidder set is unchanged.
(Errors are raised before any mutation in the source, so a rejected call
leaves the state untouched.) -/
theorem C1_process_bid_validation (s : GameState) (p : Nat) (amt : Int)
    (hreach : Reachable s) :
    ((∃ e, Game.process_bid s p amt = .error e) ↔
      (s.phase ≠ .AUCTION_BIDDING ∨ p ∉ s.activeBidders ∨
        ¬(0 < amt ∧ amt % 10 = 0) ∨ amt ≤ s.highestBid)) ∧
    (∀ s', Game.process_bid s p amt = .ok s' →
      s'.highestBid = amt ∧ s'.highestBidder = some p ∧
      s'.phase = .AUCTION_BIDDING ∧ s'.activeBidders = s.activeBidders) := by
  obtain ⟨hpair, hbid, _, _⟩ := reachable_inv hreach
  constructor
  · by_cases hph : s.phase = .AUCTION_BIDDING
    · have hsome : ∃ a, s.current_auction = some a := by
        cases ha : s.current_auction with
        | none => rw [hpair.mp ha] at hph; simp at hph
        | some a => exact ⟨a, rfl⟩
      obtain ⟨a, hsome⟩ := hsome
      have h0 : 0 ≤ a.highest_bid := hbid a hsome
      have hok_iff : (∃ s', Game.process_bid s p amt = .ok s') ↔
          (p ∈ a.active_bidders ∧ amt % 10 = 0 ∧ a.highest_bid < amt) := by
        constructor
        · rintro ⟨s', hok⟩
          rw [process_bid_ok] at hok
          obtain ⟨a', hreq, hm, hd, hl, _⟩ := hok
          rw [require_auction_ok, hsome] at hreq
          obtain ⟨-, ha'⟩ := hreq
          cases ha'
          exact ⟨hm, hd, hl⟩
        · rintro ⟨hm, hd, hl⟩
          exact ⟨_, process_bid_ok.mpr
            ⟨a, require_auction_ok.mpr ⟨hph, hsome⟩, hm, hd, hl, rfl⟩⟩
      rw [except_error_iff, hok_iff]
      have hact : s.activeBidders = a.active_bidders := by
        simp [GameState.activeBidders, hsome]
      have hhb : s.highestBid = a.highest_bid := by
        simp [GameState.highestBid, hsome]
      rw [hact, hhb]
      constructor
      · intro h
        by_cases hm : p ∈ a.active_bidders
        · by_cases hd : amt % 10 = 0
          · have : ¬ a.highest_bid < amt := fun hl => h ⟨hm, hd, hl⟩
            right; right; right
            omega
          · right; right; left
            exact fun hcontra => hd hcontra.2
        · right; left; exact hm
      · rintro (h | h | h | h) ⟨hm, hd, hl⟩
        · exact h hph
        · exact h hm
        · exact h ⟨by omega, hd⟩
        · omega
    · have herr : ∃ e, Game.process_bid s p amt = .error e := by
        unfold Game.process_bid Game.require_auction
        simp [hph]
      exact iff_of_true herr (Or.inl hph)
  · intro s' hok
    rw [process_bid_ok] at hok
    obtain ⟨a, hreq, hm, hd, hl, rfl⟩ := hok
    rw [require_auction_ok] at hreq
    obtain ⟨hph, hsome⟩ := hreq
    refine ⟨?_, ?_, hph, ?_⟩
    · simp [GameState.highestBid]
    · simp [GameState.highestBidder]
    · simp [GameState.activeBidders, hsome]

theorem C1_witness :
    (∃ e, Game.process_bid g1 0 10 = .error e) ∧
    (∀ s', Game.process_bid g1 1 10 = .ok s' →
      s'.highestBid = 10 ∧ s'.highestBidder = some 1 ∧
      s'.phase = .AUCTION_BIDDING ∧ s'.activeBidders = g1.activeBidders) :=
  ⟨(C1_process_bid_validation g1 0 10 reachable_g1).1.mpr
      (Or.inr (Or.inl (by decide))),
   (C1_process_bid_validation g1 1 10 reachable_g1).2⟩

/-- C2: in phase `AUCTION_BIDDING`, a pass by an active bidder removes
exactly that index; with exactly one bidder left the survivor becomes the
highest bidder (regardless of any earlier bids), the phase becomes
`AUCTION_WON` and the recorded highest bid is kept; with more than one
bidder left the phase, highest bid and highest bidder are unchanged.  A pass
by a non-bidder or outside the bidding phase fails (leaving the state
unchanged, as the source raises before mutating). -/
theorem C2_pass_auction (s : GameState) (p : Nat) :
    (∀ a, s.phase = .AUCTION_BIDDING → s.current_auction = some a →
      p ∈ a.active_bidders →
      ∃ s', Game.pass_auction s p = .ok s' ∧
        s'.activeBidders = a.active_bidders.erase p ∧
        s'.highestBid = a.highest_bid ∧
        ((a.active_bidders.erase p).length = 1 →
          s'.phase = .AUCTION_WON ∧
          ∃ w, a.active_bidders.erase p = [w] ∧ s'.highestBidder = some w) ∧
        (1 < (a.active_bidders.erase p).length →
          s'.phase = .AUCTION_BIDDING ∧
          s'.highestBidder = a.highest_bidder_index)) ∧
    ((s.phase ≠ .AUCTION_BIDDING ∨ p ∉ s.activeBidders) →
      ∃ e, Game.pass_auction s p = .error e) := by
  constructor
  · intro a hph hsome hmem
    have hreq : Game.require_auction s = .ok a :=
      require_auction_ok.mpr ⟨hph, hsome⟩
    rcases herase : a.active_bidders.erase p with _ | ⟨w, _ | ⟨y, ys⟩⟩
    · refine ⟨{ s with current_auction := some { a with active_bidders := [] } }, ?_, rfl, rfl, ?_, ?_⟩
      · simp [Game.pass_auction, hreq, hmem, herase]
      · intro h1
        simp at h1
      · intro h1
        simp at h1
    · refine ⟨{ s with phase := .AUCTION_WON, current_auction := some { a with active_bidders := [w], highest_bidder_index := some w } }, ?_, rfl, rfl, ?_, ?_⟩
      · simp [Game.pass_auction, hreq, hmem, herase]
      · intro h1
        exact ⟨rfl, w, rfl, rfl⟩
      · intro h1
        simp at h1
    · refine ⟨{ s with current_auction := some { a with active_bidders := w :: y :: ys } }, ?_, rfl, rfl, ?_, ?_⟩
      · simp [Game.pass_auction, hreq, hmem, herase]
      · intro h1
        rw [List.length_cons, List.length_cons] at h1
        omega
      · intro h1
        exact ⟨hph, rfl⟩
  · intro hfail
    rw [except_error_iff]
    rintro ⟨s', hok⟩
    rw [pass_auction_ok] at hok
    obtain ⟨a, hreq, hmem, -⟩ := hok
    rw [require_auction_ok] at hreq
    obtain ⟨hph, hsome⟩ := hreq
    rcases hfail with h | h
    · exact h hph
    · rw [GameState.activeBidders, hsome] at h
      exact h hmem

theorem C2_witness :
    ∃ s', Game.pass_auction g1 1 = .ok s' ∧
      s'.activeBidders = ([1, 2] : List Nat).erase 1 := by
  obtain ⟨s', hok, hact, -, -, -⟩ :=
    (C2_pass_auction g1 1).1 ⟨horseCard, 0, 0, none, [1, 2]⟩ rfl rfl (by decide)
  exact ⟨s', hok, hact⟩

/-- C3: `draw_for_auction` fails with a phase violation outside `TURN_START`,
fails with the exhausted-deck error in `TURN_START` on an empty deck (leaving
the state unchanged), and otherwise removes the top (last) card, returns it,
and opens an auction with bid 0, no bidder, the turn player as auctioneer,
and all other indices as active bidders in ascending order. -/
theorem C3_draw_for_auction (s : GameState) :
    (s.phase ≠ .TURN_START →
      Game.draw_for_auction s = .error (.wrongPhaseForDraw s.phase)) ∧
    (s.phase = .TURN_START → s.deck = [] →
      Game.draw_for_auction s = .error .deckEmpty) ∧
    (s.phase = .TURN_START → s.deck ≠ [] →
      ∃ c s' bidders, Game.draw_for_auction s = .ok (c, s') ∧
        s.deck = s'.deck ++ [c] ∧ s'.phase = .AUCTION_BIDDING ∧
        s'.current_auction = some ⟨c, s.current_turn, 0, none, bidders⟩ ∧
        bidders.Pairwise (· < ·) ∧
        (∀ i, i ∈ bidders ↔ i < s.players.length ∧ i ≠ s.current_turn) ∧
        s'.players = s.players ∧ s'.current_turn = s.current_turn) := by
  refine ⟨?_, ?_, ?_⟩
  · intro hph
    unfold Game.draw_for_auction
    simp [hph]
  · intro hph hdeck
    unfold Game.draw_for_auction Deck.draw
    simp [hph, hdeck]
  · intro hph hdeck
    have hlast : s.deck.getLast? = some (s.deck.getLast hdeck) :=
      List.getLast?_eq_getLast s.deck hdeck
    refine ⟨s.deck.getLast hdeck, _, openBidders s,
      draw_for_auction_ok.mpr ⟨hph, hlast, rfl⟩, ?_, rfl, rfl, ?_, ?_, rfl, rfl⟩
    · exact (List.dropLast_append_getLast hdeck).symm
    · exact (List.pairwise_lt_range _).filter _
    · intro i
      unfold openBidders
      simp [List.mem_filter, List.mem_range]

theorem C3_witness :
    ∃ c s' bidders, Game.draw_for_auction g0 = .ok (c, s') ∧
      g0.deck = s'.deck ++ [c] ∧ s'.phase = .AUCTION_BIDDING ∧
      s'.current_auction = some ⟨c, g0.current_turn, 0, none, bidders⟩ ∧
      bidders.Pairwise (· < ·) ∧
      (∀ i, i ∈ bidders ↔ i < g0.players.length ∧ i ≠ g0.current_turn) ∧
      s'.players = g0.players ∧ s'.current_turn = g0.current_turn :=
  (C3_draw_for_auction g0).2.2 rfl (by decide)

/-- C4: from any state in phase `AUCTION_WON`, drawing fails with a phase
violation, bidding and passing fail with the no-active-auction error, and no
sequence of successful core operations leaves the phase. -/
theorem C4_auction_won_terminal (s : GameState) (h : s.phase = .AUCTION_WON) :
    Game.draw_for_auction s = .error (.wrongPhaseForDraw .AUCTION_WON) ∧
    (∀ p amt, Game.process_bid s p amt = .error (.noActiveAuction .AUCTION_WON)) ∧
    (∀ p, Game.pass_auction s p = .error (.noActiveAuction .AUCTION_WON)) ∧
    (∀ s', Relation.ReflTransGen Step s s' → s'.phase = .AUCTION_WON) := by
  have hreq : Game.require_auction s = .error (.noActiveAuction .AUCTION_WON) := by
    unfold Game.require_auction
    simp [h]
  refine ⟨?_, ?_, ?_, ?_⟩
  · unfold Game.draw_for_auction
    simp [h]
  · intro p amt
    unfold Game.process_bid
    rw [hreq]
  · intro p
    unfold Game.pass_auction
    rw [hreq]
  · intro s' hsteps
    induction hsteps with
    | refl => exact h
    | tail hab hbc ih => exact step_preserves_won hbc ih

theorem C4_witness :
    Game.draw_for_auction g2 = .error (.wrongPhaseForDraw .AUCTION_WON) ∧
    Game.process_bid g2 1 20 = .error (.noActiveAuction .AUCTION_WON) ∧
    Game.pass_auction g2 2 = .error (.noActiveAuction .AUCTION_WON) :=
  ⟨(C4_auction_won_terminal g2 rfl).1,
   (C4_auction_won_terminal g2 rfl).2.1 1 20,
   (C4_auction_won_terminal g2 rfl).2.2.1 2⟩

/-- C5 counterexample: removing `[10, 50]` from a hand holding only a 10
raises the card-not-held error, yet the 10 has already been removed — the
hand is NOT left as it was, so removal is not all-or-nothing. -/
theorem C5_counterexample :
    (Player.remove_money { name := "Alice", money := [⟨.TEN⟩] }
        [⟨.TEN⟩, ⟨.FIFTY⟩]).2 = true ∧
    (Player.remove_money { name := "Alice", money := [⟨.TEN⟩] }
        [⟨.TEN⟩, ⟨.FIFTY⟩]).1.money = [] := by
  constructor <;> rfl

/-- C5 amended: `remove_money` fails with the card-not-held error exactly when
the requested cards are not contained in the hand counting multiplicity, but
removal is sequential: cards processed before the missing one stay removed
(no rollback).  On success every denomination's count drops by the requested
amount. -/
theorem C5_remove_money_amended (p : Player) (cards : List MoneyCard) :
    ((p.remove_money cards).2 = true ↔
      ¬ ∀ c, cards.count c ≤ p.money.count c) ∧
    ((p.remove_money cards).2 = false →
      ∀ c, (p.remove_money cards).1.money.count c =
        p.money.count c - cards.count c) := by
  unfold Player.remove_money
  constructor
  · rw [← removeMoneyLoop_success_iff cards p.money]
    simp
  · intro herr c
    simp only at herr ⊢
    exact removeMoneyLoop_success_counts cards p.money herr c

theorem C5_amended_witness :
    ∀ c, ((Player.remove_money { name := "Alice", money := [⟨.TEN⟩, ⟨.FIFTY⟩] }
        [⟨.FIFTY⟩]).1).money.count c =
      ([⟨.TEN⟩, ⟨.FIFTY⟩] : List MoneyCard).count c -
        ([⟨.FIFTY⟩] : List MoneyCard).count c :=
  (C5_remove_money_amended { name := "Alice", money := [⟨.TEN⟩, ⟨.FIFTY⟩] }
    [⟨.FIFTY⟩]).2 (by rfl)

/-- C6: in every reachable state the auction is absent exactly when the phase
is `TURN_START`, and present (exactly one `AuctionState`) whenever the phase
is `AUCTION_BIDDING` or `AUCTION_WON`. -/
theorem C6_phase_auction_pairing (s : GameState) (hreach : Reachable s) :
    (s.current_auction = none ↔ s.phase = .TURN_START) ∧
    ((s.phase = .AUCTION_BIDDING ∨ s.phase = .AUCTION_WON) →
      ∃ a, s.current_auction = some a) := by
  obtain ⟨hpair, -, -, -⟩ := reachable_inv hreach
  refine ⟨hpair, ?_⟩
  intro hph
  cases ha : s.current_auction with
  | none =>
      rw [hpair.mp ha] at hph
      rcases hph with h | h <;> simp at h
  | some a => exact ⟨a, rfl⟩

theorem C6_witness :
    (g1.current_auction = none ↔ g1.phase = .TURN_START) ∧
    ∃ a, g1.current_auction = some a :=
  ⟨(C6_phase_auction_pairing g1 reachable_g1).1,
   (C6_phase_auction_pairing g1 reachable_g1).2 (Or.inl rfl)⟩

/-- C7: construction succeeds for 3-5 players with a 40-card deck, turn 0,
phase `TURN_START` and no auction, and fails with the cardinality error for
any other roster size. -/
theorem C7_construction (players : List Player) (shuffled : List AnimalCard)
    (hperm : shuffled.Perm Deck.initialCards) :
    (3 ≤ players.length ∧ players.length ≤ 5 →
      ∃ s, Game.init players shuffled = .ok s ∧ s.deck.length = 40 ∧
        s.current_turn = 0 ∧ s.phase = .TURN_START ∧ s.current_auction = none) ∧
    (¬(3 ≤ players.length ∧ players.length ≤ 5) →
      Game.init players shuffled = .error (.invalidPlayerCount players.length)) := by
  have hlen : shuffled.length = 40 := by
    rw [hperm.length_eq]
    rfl
  constructor
  · intro hn
    refine ⟨_, init_ok.mpr ⟨hn, rfl⟩, hlen, rfl, rfl, rfl⟩
  · intro hn
    unfold Game.init MIN_PLAYERS MAX_PLAYERS
    rw [if_neg hn]

theorem C7_witness :
    ∃ s, Game.init [alice, bob, carol] Deck.initialCards = .ok s ∧
      s.deck.length = 40 ∧ s.current_turn = 0 ∧ s.phase = .TURN_START ∧
      s.current_auction = none :=
  (C7_construction [alice, bob, carol] Deck.initialCards
    (List.Perm.refl _)).1 (by decide)

/-- C8 counterexample: a roster of three identical player records is accepted
by `Game.__init__`, which only validates the roster length; the claim that
construction fails on duplicate player records is false. -/
theorem C8_counterexample :
    ¬ ([dave, dave, dave] : List Player).Nodup ∧
    ∃ s, Game.init [dave, dave, dave] Deck.initialCards = .ok s := by
  constructor
  · simp
  · exact ⟨_, rfl⟩

/-- C8 amended: construction succeeds exactly when the roster length is
between 3 and 5; player distinctness and names are never validated. -/
theorem C8_amended (players : List Player) (shuffled : List AnimalCard) :
    (∃ s, Game.init players shuffled = .ok s) ↔
      3 ≤ players.length ∧ players.length ≤ 5 := by
  unfold Game.init
  split <;> simp_all [MIN_PLAYERS, MAX_PLAYERS]

/-- C9: every reachable state in phase `AUCTION_BIDDING` has at least two
active bidders, so a pass never empties the bidder set: the auction is won
exactly when the set shrinks to one. -/
theorem C9_bidders_lower_bound (s : GameState) (hreach : Reachable s)
    (hph : s.phase = .AUCTION_BIDDING) :
    (∃ a, s.current_auction = some a ∧ 2 ≤ a.active_bidders.length) ∧
    (∀ p s', Game.pass_auction s p = .ok s' → s'.activeBidders ≠ []) := by
  obtain ⟨hpair, -, hbidders, -⟩ := reachable_inv hreach
  have hsome : ∃ a, s.current_auction = some a := by
    cases ha : s.current_auction with
    | none => rw [hpair.mp ha] at hph; simp at hph
    | some a => exact ⟨a, rfl⟩
  obtain ⟨a, hsome⟩ := hsome
  have hlen : 2 ≤ a.active_bidders.length := hbidders a hph hsome
  refine ⟨⟨a, hsome, hlen⟩, ?_⟩
  intro p s' hok
  rw [pass_auction_ok] at hok
  obtain ⟨a', hreq, hmem, hcase⟩ := hok
  rw [require_auction_ok, hsome] at hreq
  obtain ⟨-, ha'⟩ := hreq
  cases ha'
  rcases hcase with ⟨w, herase, rfl⟩ | ⟨hlen1, rfl⟩
  · simp [GameState.activeBidders]
  · have hel := List.length_erase_of_mem hmem
    simp only [GameState.activeBidders]
    intro hnil
    rw [hnil] at hel
    simp at hel
    omega

theorem C9_witness :
    (∃ a, g1.current_auction = some a ∧ 2 ≤ a.active_bidders.length) ∧
    (∀ p s', Game.pass_auction g1 p = .ok s' → s'.activeBidders ≠ []) :=
  C9_bidders_lower_bound g1 reachable_g1 rfl

/-- C10 counterexample: in the reachable 4-player state `h3` the phase is
`AUCTION_BIDDING` and player 1 is the recorded highest bidder (having bid 10
and then passed), yet their bid of 20 — a multiple of 10 strictly above the
highest bid — is rejected, because passing removed them from the active
bidders.  The claim that the highest bidder can always raise is false. -/
theorem C10_counterexample :
    Reachable h3 ∧ h3.phase = .AUCTION_BIDDING ∧
    h3.highestBidder = some 1 ∧ (20 : Int) % 10 = 0 ∧ h3.highestBid < 20 ∧
    Game.process_bid h3 1 20 = .error (.notActiveBidder 1) :=
  ⟨reachable_h3, rfl, rfl, by decide, by decide, rfl⟩

/-- C10 amended: placing a bid never removes anyone from the active bidder
list, and the current highest bidder may raise their own bid as long as they
are still an active bidder (i.e. have not passed since bidding): any multiple
of 10 strictly above the current highest bid is then accepted. -/
theorem C10_highest_bidder_raise :
    (∀ (s : GameState) (a : AuctionState) (p : Nat) (amt : Int),
      s.phase = .AUCTION_BIDDING → s.current_auction = some a →
      a.highest_bidder_index = some p → p ∈ a.active_bidders →
      amt % 10 = 0 → a.highest_bid < amt →
      ∃ s', Game.process_bid s p amt = .ok s' ∧
        s'.activeBidders = a.active_bidders) ∧
    (∀ (s s' : GameState) (p : Nat) (amt : Int),
      Game.process_bid s p amt = .ok s' → s'.activeBidders = s.activeBidders) := by
  constructor
  · intro s a p amt hph hsome hhb hmem hmod hlt
    refine ⟨_, process_bid_ok.mpr
      ⟨a, require_auction_ok.mpr ⟨hph, hsome⟩, hmem, hmod, hlt, rfl⟩, rfl⟩
  · intro s s' p amt hok
    rw [process_bid_ok] at hok
    obtain ⟨a, hreq, -, -, -, rfl⟩ := hok
    rw [require_auction_ok] at hreq
    simp [GameState.activeBidders, hreq.2]

theorem C10_witness :
    ∃ s', Game.process_bid g1b 1 20 = .ok s' ∧
      s'.activeBidders = [1, 2] :=
  C10_highest_bidder_raise.1 g1b ⟨horseCard, 0, 10, some 1, [1, 2]⟩ 1 20
    rfl rfl rfl (by decide) (by decide) (by decide)

end Kuhhandel
